import Mathlib

/-!
Verification of the abstract-syntax layer of the substance/mini formula
language: the CST-to-AST tree builder (createNodeTree / createFromAST, with
its Token side table, argSequence and _getStartStop helpers) and the
pre-order walker (walk.js).

Shallow embedding conventions:
- JS numbers used as source offsets are modelled as Int; node ids as Nat
  (the per-build counter starts at 0 and only increments).
- JS runtime failures (reading a property of undefined, the Token
  constructor's Illegal-argument throws) are modelled as Except.error;
  ordinary results as Except.ok.
- The recursion of createFromAST is not structural on the CST (the CST is
  consumed through index lookups and nested lists), so the function takes a
  fuel argument and recurses on it; running out of fuel is an Except.error.
- The Node model (Nodes.js) and the Address Resolver are not under src/
  (only the README builder, walk.js and the tests reference them); the
  definitions below that stand in for them carry doc comments starting
  with: Modelled from the spec.
-/

/-- An ANTLR terminal symbol as the builder consumes it: numeric start/stop
character offsets (stop inclusive) and the matched text. -/
structure Symb where
  start : Int
  stop : Int
  text : String
deriving DecidableEq, Repr

/-- A dynamically typed JS value, as far as the Token constructor's
argument checks can observe one. -/
inductive JsVal where
  | num (n : Int)
  | str (s : String)
  | boolVal (b : Bool)
  | undef
deriving DecidableEq, Repr

/-- The isString check from the substance util library used by Token. -/
def isString : JsVal → Bool
  | .str _ => true
  | _ => false

/-- The isNumber check from the substance util library used by Token. -/
def isNumber : JsVal → Bool
  | .num _ => true
  | _ => false

/-- A symbol argument for the Token constructor before its checks ran:
start and stop may be any JS value, text may be absent. -/
structure JsSym where
  start : JsVal
  stop : JsVal
  text : Option String
deriving DecidableEq, Repr

/-- A successfully constructed highlighting Token (README lines 225-247).
The JS field named end is called endPos here because end is a Lean
keyword; text is absent when the symbol carried no text property. -/
structure Token where
  type : String
  start : Int
  endPos : Int
  text : Option String
deriving DecidableEq, Repr

/-- The Token constructor (README lines 225-247): checks type, then
symbol.start, then symbol.stop, throwing an Illegal-argument error at the
first failure; on success stores endPos = stop + 1 (the stop offset is
inclusive, endPos is exclusive). -/
def Token.construct (ty : JsVal) (symbol : JsSym) : Except String Token :=
  match ty with
  | .str t =>
    match symbol.start with
    | .num a =>
      match symbol.stop with
      | .num b => .ok ⟨t, a, b + 1, symbol.text⟩
      | _ => .error "Illegal argument: \"stop\" must be a number"
    | _ => .error "Illegal argument: \"start\" must be a number"
  | _ => .error "Illegal argument: \"type\" must be a string"

/-- The Token the builder pushes for a grammar symbol: all builder call
sites pass a string kind and an ANTLR symbol with numeric offsets, so the
construction always succeeds (see token_ofSym_agrees below). -/
def Token.ofSym (kind : String) (s : Symb) : Token :=
  ⟨kind, s.start, s.stop + 1, some s.text⟩

/-- The AST node model. Modelled from the spec: Nodes.js is not under src/;
the variants and fields follow the spec's data-model table (section 3),
with the concrete CellRef/RangeRef coordinates the Address Resolver
produces. Every node stores id, start, end (start/end may be undefined
when the CST gave no span, hence Option Int). -/
inductive Node where
  | definition (id : Nat) (s e : Option Int) (name : String) (expr : Node)
  | numberNode (id : Nat) (s e : Option Int) (value : Option Nat)
  | stringNode (id : Nat) (s e : Option Int) (value : String)
  | booleanNode (id : Nat) (s e : Option Int) (value : Bool)
  | var (id : Nat) (s e : Option Int) (name : String)
  | cellRef (id : Nat) (s e : Option Int) (row col : Nat)
  | rangeRef (id : Nat) (s e : Option Int) (startRow startCol endRow endCol : Nat)
  | arrayNode (id : Nat) (s e : Option Int) (vals : List Node)
  | objectNode (id : Nat) (s e : Option Int) (entries : List (String × Node))
  | functionCall (id : Nat) (s e : Option Int) (name : String)
      (args : List Node) (namedArgs : List Node)
  | namedArgument (id : Nat) (s e : Option Int) (name : String) (value : Node)
  | emptyArgument (id : Nat) (s e : Option Int)
  | pipeOp (id : Nat) (s e : Option Int) (left right : Node)
  | errorNode (id : Nat) (s e : Option Int) (message : String)

/-- The id field shared by every node kind. -/
def Node.id : Node → Nat
  | .definition i _ _ _ _ => i
  | .numberNode i _ _ _ => i
  | .stringNode i _ _ _ => i
  | .booleanNode i _ _ _ => i
  | .var i _ _ _ => i
  | .cellRef i _ _ _ _ => i
  | .rangeRef i _ _ _ _ _ _ => i
  | .arrayNode i _ _ _ => i
  | .objectNode i _ _ _ => i
  | .functionCall i _ _ _ _ _ => i
  | .namedArgument i _ _ _ _ => i
  | .emptyArgument i _ _ => i
  | .pipeOp i _ _ _ _ => i
  | .errorNode i _ _ _ => i

/-- Whether a node is a Var node (the only kind the builder appends to the
inputs side table). -/
def Node.isVar : Node → Bool
  | .var _ _ _ _ => true
  | _ => false

/-- Modelled from the spec: Nodes.js is not under src/. The FunctionCall
constructor receives possibly-undefined args/namedArgs (the builder passes
nothing for them in the operator-lowering cases and when the call has no
argument-list context); the spec's data model fixes both fields to ordered
sequences, and the walker reads args unconditionally, so an absent
argument list is stored as the empty sequence. -/
def mkFunctionCall (id : Nat) (s e : Option Int) (name : String)
    (args namedArgs : Option (List Node)) : Node :=
  .functionCall id s e name (args.getD []) (namedArgs.getD [])

/-- Decimal value of a digit string (the numeric interpretation used by
rowToIndex and by the JS Number conversion on integer literals). -/
def decimalValue (cs : List Char) : Nat :=
  cs.foldl (fun a c => a * 10 + (c.toNat - 48)) 0

/-- Modelled from the spec: the Address Resolver is not under src/.
Section 4.1: zero-based base-26 column index with no zero digit
(A=0 ... Z=25, AA=26 ...). -/
def columnToIndex (letters : String) : Nat :=
  (letters.toList.foldl (fun acc c => acc * 26 + (c.toNat - 64)) 0) - 1

/-- Modelled from the spec: the Address Resolver is not under src/.
Section 4.1: the row index is the decimal value of the digits minus one. -/
def rowToIndex (digits : String) : Nat :=
  decimalValue digits.toList - 1

/-- Modelled from the spec: the Address Resolver is not under src/.
Section 4.1: parseCell splits a cell address into its letter prefix and
digit suffix and resolves both; the result is the (row, col) pair. -/
def parseCell (text : String) : Nat × Nat :=
  let letters := String.mk (text.toList.takeWhile Char.isAlpha)
  let digits := String.mk (text.toList.dropWhile Char.isAlpha)
  (rowToIndex digits, columnToIndex letters)

/-- Split a character list at the first colon (used by parseRange). -/
def splitOnColon : List Char → List Char × List Char
  | [] => ([], [])
  | c :: rest =>
    if c = ':' then ([], rest)
    else
      let p := splitOnColon rest
      (c :: p.1, p.2)

/-- Modelled from the spec: the Address Resolver is not under src/.
Section 4.1: parseRange splits on the colon and resolves each side with
parseCell; the result is (startRow, startCol, endRow, endCol). -/
def parseRange (text : String) : Nat × Nat × Nat × Nat :=
  let p := splitOnColon text.toList
  let a := parseCell (String.mk p.1)
  let b := parseCell (String.mk p.2)
  (a.1, a.2, b.1, b.2)

/-- Modelled from the spec: the JS Number conversion applied to the text of
a numeric-literal token (section 4.3 rule 7), restricted to the nonnegative
decimal integer shapes the int production emits; none stands for NaN. -/
def jsNumber (s : String) : Option Nat :=
  if s.toList ≠ [] ∧ s.toList.all Char.isDigit then some (decimalValue s.toList)
  else none

/-- A CST node as the builder consumes it (the input-boundary capability
set of spec section 6 plus the properties the builder reads):
type discriminant, ordered children, getText result, optional start/stop
terminal symbols, optional symbol (for bare terminals), optional exception
payload (its message), and the rule-specific properties name and args (for
call contexts: args holds the pair of possibly-absent arg-list and
named-arg-list nodes), items (for array item sequences; none models an
absent items property), keys and vals (for object contexts; ANTLR label
lists are always present, possibly empty). -/
inductive CST where
  | mk (type : String) (children : List CST) (text : String)
      (start stop symbol : Option Symb) (exception : Option String)
      (name : Option Symb)
      (args : Option (Option CST × Option CST))
      (items : Option (List CST))
      (keys : List Symb) (vals : List CST)

/-- The type/kind discriminant of a CST node. -/
def CST.type : CST → String
  | .mk t _ _ _ _ _ _ _ _ _ _ _ => t

/-- The ordered children of a CST node. -/
def CST.children : CST → List CST
  | .mk _ c _ _ _ _ _ _ _ _ _ _ => c

/-- The raw source text of a CST node (the getText method). -/
def CST.getText : CST → String
  | .mk _ _ t _ _ _ _ _ _ _ _ _ => t

/-- The start terminal symbol of a CST node, when present. -/
def CST.start : CST → Option Symb
  | .mk _ _ _ s _ _ _ _ _ _ _ _ => s

/-- The stop terminal symbol of a CST node, when present. -/
def CST.stop : CST → Option Symb
  | .mk _ _ _ _ p _ _ _ _ _ _ _ => p

/-- The bare terminal symbol of a CST node, when present. -/
def CST.symbol : CST → Option Symb
  | .mk _ _ _ _ _ y _ _ _ _ _ _ => y

/-- The parser-reported exception payload of a CST node, when present. -/
def CST.exception : CST → Option String
  | .mk _ _ _ _ _ _ e _ _ _ _ _ => e

/-- The name token of a call CST node, when present. -/
def CST.name : CST → Option Symb
  | .mk _ _ _ _ _ _ _ n _ _ _ _ => n

/-- The argument-list context of a call CST node: when present it carries
the possibly-absent positional-args node and named-args node. -/
def CST.args : CST → Option (Option CST × Option CST)
  | .mk _ _ _ _ _ _ _ _ a _ _ _ => a

/-- The items property of an array item-sequence CST node. -/
def CST.items : CST → Option (List CST)
  | .mk _ _ _ _ _ _ _ _ _ i _ _ => i

/-- The key token list of an object CST context. -/
def CST.keys : CST → List Symb
  | .mk _ _ _ _ _ _ _ _ _ _ k _ => k

/-- The value node list of an object CST context. -/
def CST.vals : CST → List CST
  | .mk _ _ _ _ _ _ _ _ _ _ _ v => v

/-- Source-span computation (README lines 284-296): [start.start,
stop.stop + 1] when both terminals exist, [start.start, start.stop + 1]
when only start exists, [symbol.start, symbol.stop + 1] for a bare
terminal, and [undefined, undefined] otherwise. -/
def _getStartStop (n : CST) : Option Int × Option Int :=
  match n.start with
  | some s =>
    match n.stop with
    | some p => (some s.start, some (p.stop + 1))
    | none => (some s.start, some (s.stop + 1))
  | none =>
    match n.symbol with
    | some y => (some y.start, some (y.stop + 1))
    | none => (none, none)

/-- The per-build mutable context threaded through createFromAST: the id
counter, the flat node list, the input-reference list and the token
list (README lines 37-50). -/
structure BState where
  nodeId : Nat
  nodes : List Node
  inputs : List Node
  tokens : List Token

/-- The fresh build context createNodeTree allocates. -/
def initialState : BState := ⟨0, [], [], []⟩

/-- Post-increment of the node id counter. -/
def bump (st : BState) : BState :=
  ⟨st.nodeId + 1, st.nodes, st.inputs, st.tokens⟩

/-- state.tokens.push(tk). -/
def pushToken (st : BState) (tk : Token) : BState :=
  ⟨st.nodeId, st.nodes, st.inputs, st.tokens ++ [tk]⟩

/-- state.nodes.push(n). -/
def pushNode (st : BState) (n : Node) : BState :=
  ⟨st.nodeId, st.nodes ++ [n], st.inputs, st.tokens⟩

/-- state.inputs.push(n). -/
def pushInput (st : BState) (n : Node) : BState :=
  ⟨st.nodeId, st.nodes, st.inputs ++ [n], st.tokens⟩

/-- The shared tail of every non-transparent createFromAST case:
state.nodes.push(node); return node. -/
def finish (st : BState) (n : Node) : Except String (Node × BState) :=
  .ok (n, pushNode st n)

/-- Child lookup ast.children[i]. In JS an out-of-range index yields
undefined and the builder's subsequent property access on it throws; the
model reports the failure at the lookup. -/
def childAt (ast : CST) (i : Nat) : Except String CST :=
  match ast.children.get? i with
  | some c => .ok c
  | none => .error "TypeError: child is undefined"

/-- Symbol access n.symbol where the builder immediately hands the symbol
to the Token constructor; an absent symbol makes that constructor throw a
TypeError in JS. -/
def getSymbol (c : CST) : Except String Symb :=
  match c.symbol with
  | some s => .ok s
  | none => .error "TypeError: symbol is undefined"

/-- exprSequence (README lines 249-252): map the builder over a list of
CST nodes left to right (the null-items guard lives at the call sites in
this model, which always pass a list). The builder function is a
parameter so that createFromAST can recurse through it on its fuel. -/
def exprSequenceF (f : BState → CST → Except String (Node × BState)) :
    BState → List CST → Except String (List Node × BState)
  | st, [] => .ok ([], st)
  | st, c :: cs => do
    let (n, st1) ← f st c
    let (l, st2) ← exprSequenceF f st1 cs
    .ok (n :: l, st2)

/-- The scanning loop of argSequence (README lines 260-273): walks the raw
argument children left to right; a comma that opens the sequence or
follows another comma (last falsy) synthesizes an EmptyArgument at the
comma's own span (consuming an id but never entering state.nodes); any
other child is built by recursive descent. Returns the built list, the
final truthiness of last, and the threaded state. -/
def argLoopF (f : BState → CST → Except String (Node × BState)) :
    BState → Bool → List CST → Except String (List Node × Bool × BState)
  | st, last, [] => .ok ([], last, st)
  | st, last, n :: rest =>
    if n.getText == "," then
      if last then do
        let (l, last2, st2) ← argLoopF f st false rest
        .ok (l, last2, st2)
      else
        let se := _getStartStop n
        let ea := Node.emptyArgument st.nodeId se.1 se.2
        do
          let (l, last2, st2) ← argLoopF f (bump st) false rest
          .ok (ea :: l, last2, st2)
    else do
      let (nd, st1) ← f st n
      let (l, last2, st2) ← argLoopF f st1 true rest
      .ok (nd :: l, last2, st2)

/-- argSequence (README lines 254-282): absent argument node yields the
empty list; otherwise run the scanning loop over its children and, when
the loop ended with last falsy, re-inspect the final child: a trailing
comma synthesizes one final EmptyArgument (in JS an empty children array
crashes here on args[-1].getText()). -/
def argSequenceF (f : BState → CST → Except String (Node × BState))
    (st : BState) (argsNode : Option CST) : Except String (List Node × BState) :=
  match argsNode with
  | none => .ok ([], st)
  | some a => do
    let (result, last, st1) ← argLoopF f st false a.children
    if last then .ok (result, st1)
    else
      match a.children.getLast? with
      | none => .error "TypeError: last argument is undefined"
      | some lastN =>
        if lastN.getText == "," then
          let se := _getStartStop lastN
          let ea := Node.emptyArgument st1.nodeId se.1 se.2
          .ok (result ++ [ea], bump st1)
        else .ok (result, st1)

/-- The key/value loop of the object case (README lines 158-166): iterate
over the keys, pushing a key Token per key attempt, and keep an entry only
when the parallel value CST exists (vals may be shorter than keys; the
ANTLR label lists have no holes, so a key itself is always present). -/
def objEntriesF (f : BState → CST → Except String (Node × BState)) :
    BState → List Symb → List CST → Except String (List (String × Node) × BState)
  | st, [], _ => .ok ([], st)
  | st, k :: ks, vals =>
    let st1 := pushToken st (Token.ofSym "key" k)
    match vals with
    | [] => objEntriesF f st1 ks []
    | v :: vs => do
      let (n, st2) ← f st1 v
      let (rest, st3) ← objEntriesF f st2 ks vs
      .ok ((k.text, n) :: rest, st3)

/-- Modelled from the spec: the builder's cell production case is not under
src/ (only test/parse.test.js exercises it). Spec section 4.3 rule 11 with
section 4.1: the cell address text is resolved via parseCell into a
zero-based CellRef node. -/
def cellCase (st : BState) (s e : Option Int) (ast : CST) :
    Except String (Node × BState) :=
  let rc := parseCell ast.getText
  let cid := st.nodeId
  finish (bump st) (.cellRef cid s e rc.1 rc.2)

/-- Modelled from the spec: the builder's range production case is not
under src/ (only test/parse.test.js exercises it). Spec section 4.3 rule 11
with section 4.1: the range text is resolved via parseRange into a
zero-based, inclusive RangeRef node. -/
def rangeCase (st : BState) (s e : Option Int) (ast : CST) :
    Except String (Node × BState) :=
  let r := parseRange ast.getText
  let rid := st.nodeId
  finish (bump st) (.rangeRef rid s e r.1 r.2.1 r.2.2.1 r.2.2.2)

/-- The call case (README lines 186-202), shared by the call production and
by _call (which re-enters it on its unwrapped child while keeping the
outer node's span): read the name text (empty string for an anonymous
call); when an argument-list context exists, build positional args and
named args independently with argSequence, otherwise leave both absent;
push a function-name Token when a name is present; construct the
FunctionCall. -/
def callCaseF (f : BState → CST → Except String (Node × BState)) (st0 : BState)
    (s e : Option Int) (ast : CST) : Except String (Node × BState) := do
  let name :=
    match ast.name with
    | some tk => tk.text
    | none => ""
  let (args, namedArgs, st1) ←
    match ast.args with
    | none =>
      (pure (none, none, st0) :
        Except String (Option (List Node) × Option (List Node) × BState))
    | some ctx => do
      let (a, stA) ← argSequenceF f st0 ctx.1
      let (na, stB) ← argSequenceF f stA ctx.2
      pure (some a, some na, stB)
  let st2 :=
    match ast.name with
    | some tk => pushToken st1 (Token.ofSym "function-name" tk)
    | none => st1
  let cid := st2.nodeId
  finish (bump st2) (mkFunctionCall cid s e name args namedArgs)

/-- One unfolding of createFromAST (README lines 52-223): the dispatch on
the CST node kind, with all recursive descent routed through the function
parameter f. State effects replay the JS statement order, including the
left-to-right evaluation of constructor arguments (so Definition, PipeOp
and NamedArgument take their id before their children are built, while
the other composite kinds build children first). The cell and range cases
are modelled from the spec (see cellCase/rangeCase). -/
def createStep (f : BState → CST → Except String (Node × BState))
    (st0 : BState) (ast : CST) : Except String (Node × BState) :=
  let se := _getStartStop ast
  let s := se.1
  let e := se.2
  match ast.type with
  | "evaluation" => do
    let c ← childAt ast 0
    f st0 c
  | "definition" => do
    let lhs ← childAt ast 0
    let lsym ← getSymbol lhs
    let st1 := pushToken st0 (Token.ofSym "output-name" lsym)
    let defId := st1.nodeId
    let st2 := bump st1
    let c2 ← childAt ast 2
    let (expr, st3) ← f st2 c2
    finish st3 (.definition defId s e lhs.getText expr)
  | "simple" => do
    let c ← childAt ast 0
    f st0 c
  | "select_id" => do
    let c0 ← childAt ast 0
    let (value, st1) ← f st0 c0
    let c2 ← childAt ast 2
    let idNode := Node.stringNode st1.nodeId s e c2.getText
    let st2 := pushNode (bump st1) idNode
    let callId := st2.nodeId
    finish (bump st2) (mkFunctionCall callId s e "select" (some [value, idNode]) none)
  | "select_expr" => do
    let c0 ← childAt ast 0
    let c2 ← childAt ast 2
    let (args, st1) ← exprSequenceF f st0 [c0, c2]
    let callId := st1.nodeId
    finish (bump st1) (mkFunctionCall callId s e "select" (some args) none)
  | "not" | "positive" | "negative" => do
    let c1 ← childAt ast 1
    let (args, st1) ← exprSequenceF f st0 [c1]
    let callId := st1.nodeId
    finish (bump st1) (mkFunctionCall callId s e ast.type (some args) none)
  | "pow" | "multiply" | "divide" | "remainder" | "add" | "subtract"
  | "less" | "less_or_equal" | "greater" | "greater_or_equal"
  | "equal" | "not_equal" | "and" | "or" => do
    let c0 ← childAt ast 0
    let c2 ← childAt ast 2
    let (args, st1) ← exprSequenceF f st0 [c0, c2]
    let callId := st1.nodeId
    finish (bump st1) (mkFunctionCall callId s e ast.type (some args) none)
  | "pipe" => do
    let pid := st0.nodeId
    let st1 := bump st0
    let c0 ← childAt ast 0
    let (l, st2) ← f st1 c0
    let c2 ← childAt ast 2
    let (r, st3) ← f st2 c2
    finish st3 (.pipeOp pid s e l r)
  | "int" | "float" | "number" =>
    if ast.children.length ≠ 1 then
      let eid := st0.nodeId
      finish (bump st0) (.errorNode eid s e "Invalid number.")
    else do
      let c0 ← childAt ast 0
      let tok ← childAt c0 0
      let tsym ← getSymbol tok
      let st1 := pushToken st0 (Token.ofSym "number-literal" tsym)
      let nid := st1.nodeId
      finish (bump st1) (.numberNode nid s e (jsNumber tok.getText))
  | "boolean" => do
    let tok ← childAt ast 0
    let tsym ← getSymbol tok
    let st1 := pushToken st0 (Token.ofSym "boolean-literal" tsym)
    let bid := st1.nodeId
    finish (bump st1) (.booleanNode bid s e (tok.getText == "true"))
  | "string" => do
    let ctx ← childAt ast 0
    let csym ← getSymbol ctx
    let st1 := pushToken st0 (Token.ofSym "string-literal" csym)
    let sid := st1.nodeId
    finish (bump st1)
      (.stringNode sid s e (String.mk ((ctx.getText.toList.drop 1).dropLast)))
  | "array" => do
    let ctx ← childAt ast 0
    let seqItems : List CST :=
      match ctx.children.get? 1 with
      | some seqNode => (seqNode.items).getD []
      | none => []
    let (vals, st1) ← exprSequenceF f st0 seqItems
    let aid := st1.nodeId
    finish (bump st1) (.arrayNode aid s e vals)
  | "object" => do
    let ctx ← childAt ast 0
    let (entries, st1) ← objEntriesF f st0 ctx.keys ctx.vals
    let oid := st1.nodeId
    finish (bump st1) (.objectNode oid s e entries)
  | "var" =>
    let vid := st0.nodeId
    let st1 := bump st0
    let node := Node.var vid s e ast.getText
    match ast.start, ast.stop with
    | some a, some b =>
      let st2 := pushToken st1 ⟨"input-variable-name", a.start, b.stop + 1, none⟩
      finish (pushInput st2 node) node
    | _, _ => .error "TypeError: start or stop is undefined"
  | "group" => do
    let c1 ← childAt ast 1
    f st0 c1
  | "_call" => do
    let inner ← childAt ast 0
    callCaseF f st0 s e inner
  | "call" => callCaseF f st0 s e ast
  | "named-argument" => do
    let nameTok ← childAt ast 0
    let nsym ← getSymbol nameTok
    let st1 := pushToken st0 (Token.ofSym "key" nsym)
    let naId := st1.nodeId
    let st2 := bump st1
    let c2 ← childAt ast 2
    let (value, st3) ← f st2 c2
    finish st3 (.namedArgument naId s e nameTok.getText value)
  | "cell" => cellCase st0 s e ast
  | "range" => rangeCase st0 s e ast
  | _ =>
    let eid := st0.nodeId
    let msg :=
      match ast.exception with
      | some ex => ex
      | none => "Parser error."
    finish (bump st0) (.errorNode eid s e msg)

/-- createFromAST with fuel: each recursive descent consumes one unit. -/
def createFromAST : Nat → BState → CST → Except String (Node × BState)
  | 0, _, _ => .error "Out of fuel."
  | fuel + 1, st, ast => createStep (createFromAST fuel) st ast

/-- createNodeTree (README lines 37-50): run the builder on a fresh state;
the result pairs the root node with the final state (its nodes, inputs
and tokens side tables). -/
def createNodeTree (fuel : Nat) (ast : CST) : Except String (Node × BState) :=
  createFromAST fuel initialState ast

/-- The CST kinds the createFromAST switch names (every other kind falls
through to error recovery). The cell and range entries correspond to the
spec-modelled cases. -/
def recognizedKinds : List String :=
  ["evaluation", "definition", "simple", "select_id", "select_expr",
   "not", "positive", "negative",
   "pow", "multiply", "divide", "remainder", "add", "subtract",
   "less", "less_or_equal", "greater", "greater_or_equal",
   "equal", "not_equal", "and", "or",
   "pipe", "int", "float", "number", "boolean", "string",
   "array", "object", "var", "group", "_call", "call", "named-argument",
   "cell", "range"]

/-- Child enumeration of the walker (walk.js lines 11-41). The switch
dispatches on next.type; in the spec's node model each kind carries a
distinct tag, so the switch is a match on the constructor. The
definition case pushes next.expr; the function and call tags both carry
next.args, i.e. the FunctionCall kind (positional args only - namedArgs
and the name are never pushed); the plus/minus/mult/div/power tags of
walk.js belong to no kind of the node model (the builder lowers operators
to FunctionCall), so those cases are unreachable; array pushes its vals,
object the val of each entry; every other kind, including pipe, hits the
empty default. Children are listed here in source left-to-right order; the
JS loop pushes them in reverse onto the stack so that the leftmost is
popped first, which is exactly prepending this list. -/
def walkChildren : Node → List Node
  | .definition _ _ _ _ expr => [expr]
  | .functionCall _ _ _ _ args _ => args
  | .arrayNode _ _ _ vals => vals
  | .objectNode _ _ _ entries => entries.map (fun p => p.2)
  | _ => []

mutual

/-- Number of nodes the walker's child enumeration reaches from a node
(the node itself included). -/
def Node.size : Node → Nat
  | .definition _ _ _ _ expr => 1 + Node.size expr
  | .functionCall _ _ _ _ args _ => 1 + Node.sizeL args
  | .arrayNode _ _ _ vals => 1 + Node.sizeL vals
  | .objectNode _ _ _ entries => 1 + Node.sizeP entries
  | _ => 1

/-- Total size of a list of nodes. -/
def Node.sizeL : List Node → Nat
  | [] => 0
  | n :: ns => Node.size n + Node.sizeL ns

/-- Total size of the values of an entry list. -/
def Node.sizeP : List (String × Node) → Nat
  | [] => 0
  | p :: ps => Node.size p.2 + Node.sizeP ps

end

/-- The iterative stack loop of walk.js lines 7-42: pop the top node,
visit it, prepend its children. The returned list is the visit order (the
sequence of fn invocations). -/
def walkAux : List Node → List Node
  | [] => []
  | n :: rest => n :: walkAux (walkChildren n ++ rest)
termination_by l => Node.sizeL l
decreasing_by
  have happ : ∀ a b : List Node,
      Node.sizeL (a ++ b) = Node.sizeL a + Node.sizeL b := by
    intro a b
    induction a with
    | nil => simp [Node.sizeL]
    | cons x xs ih => simp [Node.sizeL, ih]; omega
  have hmap : ∀ es : List (String × Node),
      Node.sizeL (es.map (fun p => p.2)) = Node.sizeP es := by
    intro es
    induction es with
    | nil => simp [Node.sizeL, Node.sizeP]
    | cons p ps ih => simp [Node.sizeL, Node.sizeP, ih]
  have hch : ∀ m : Node, Node.sizeL (walkChildren m) < Node.size m := by
    intro m
    cases m <;> simp [walkChildren, Node.size, Node.sizeL, hmap]
  simp only [happ, Node.sizeL]
  have := hch n
  omega

/-- walk (walk.js): the visit sequence over the tree hanging off the
build result's root. -/
def walk (root : Node) : List Node :=
  walkAux [root]

mutual

/-- The canonical pre-order flattening of a built AST under the walker's
child-enumeration contract: a node is listed before its children;
Definition contributes its bound expression, FunctionCall its positional
arguments left to right (namedArgs and the name are not traversed), Array
its values left to right, Object the value of each entry left to right;
every other kind is a leaf. -/
def preorder : Node → List Node
  | .definition i s e nm expr => .definition i s e nm expr :: preorder expr
  | .functionCall i s e nm args nargs =>
    .functionCall i s e nm args nargs :: preorderL args
  | .arrayNode i s e vals => .arrayNode i s e vals :: preorderL vals
  | .objectNode i s e entries => .objectNode i s e entries :: preorderP entries
  | n => [n]

/-- Pre-order flattening of a list of sibling subtrees, left to right. -/
def preorderL : List Node → List Node
  | [] => []
  | n :: ns => preorder n ++ preorderL ns

/-- Pre-order flattening of the values of an entry list, left to right. -/
def preorderP : List (String × Node) → List Node
  | [] => []
  | p :: ps => preorder p.2 ++ preorderP ps

end

/-- The root node of a successful build. -/
def rootOf (r : Except String (Node × BState)) : Option Node :=
  match r with
  | .ok p => some p.1
  | .error _ => none

/-- The id sequence of the flat nodes list of a successful build (empty
for a failed build). -/
def nodeIds (r : Except String (Node × BState)) : List Nat :=
  match r with
  | .ok p => p.2.nodes.map Node.id
  | .error _ => []

/-- A successful build result, with a dummy fallback for the error case
(used to state closed witness instances). -/
def resultOrDefault (r : Except String (Node × BState)) : Node × BState :=
  match r with
  | .ok p => p
  | .error _ => (.errorNode 0 none none "", initialState)

/-- Convenience constructor for a CST node that carries only the common
capabilities (kind, children, text, span terminals). -/
def mkCST (type : String) (children : List CST) (text : String)
    (start stop : Option Symb) : CST :=
  .mk type children text start stop none none none none none [] []

/-- A bare terminal CST node: its span comes from its symbol. -/
def tokNode (s : Symb) : CST :=
  .mk "" [] s.text none none (some s) none none none none [] []

/-- The terminal symbol of a token whose text begins at offset a. -/
def termSym (a : Int) (t : String) : Symb :=
  ⟨a, a + t.length - 1, t⟩

/-- The CST of an integer literal, as the grammar's number production
yields it: a number node wrapping an inner context whose single child is
the literal terminal. -/
def numberCST (a : Int) (t : String) : CST :=
  mkCST "number" [mkCST "" [tokNode (termSym a t)] t none none] t
    (some (termSym a t)) (some (termSym a t))

/-- The CST of a variable reference (a var production over one
identifier terminal). -/
def varCST (a : Int) (t : String) : CST :=
  mkCST "var" [] t (some (termSym a t)) (some (termSym a t))

/-- The CST of a binary-operator expression over two single-character
digit literals at offsets 0 and 2 with the operator terminal at offset 1
(the shapes of the five arithmetic test expressions). -/
def binCST (op : String) (d1 opTxt d2 : String) : CST :=
  mkCST op [numberCST 0 d1, tokNode (termSym 1 opTxt), numberCST 2 d2]
    (d1 ++ opTxt ++ d2) (some (termSym 0 d1)) (some (termSym 2 d2))

/-- The CST of the cell address B3. -/
def cellB3 : CST :=
  mkCST "cell" [] "B3" (some (termSym 0 "B3")) (some (termSym 0 "B3"))

/-- The CST of the range address A1:C4. -/
def rangeA1C4 : CST :=
  mkCST "range" [] "A1:C4" (some (termSym 0 "A1:C4")) (some (termSym 0 "A1:C4"))

/-- The raw argument-sequence node of sum(x,,y): x at 4, commas at 5 and
6, y at 7. -/
def argsXEY : CST :=
  mkCST "" [varCST 4 "x", tokNode ⟨5, 5, ","⟩, tokNode ⟨6, 6, ","⟩, varCST 7 "y"]
    "x,,y" none none

/-- The CST of sum(x,,y): a call with a name token and an args context
holding the positional sequence (no named arguments). -/
def sumXEY : CST :=
  .mk "call" [] "sum(x,,y)" (some ⟨0, 2, "sum"⟩) (some ⟨8, 8, ")"⟩) none none
    (some ⟨0, 2, "sum"⟩) (some (some argsXEY, none)) none [] []

/-- The raw argument-sequence node of sum(x,): x at 4, trailing comma at 5. -/
def argsXTrail : CST :=
  mkCST "" [varCST 4 "x", tokNode ⟨5, 5, ","⟩] "x," none none

/-- The CST of sum(x,). -/
def sumXTrail : CST :=
  .mk "call" [] "sum(x,)" (some ⟨0, 2, "sum"⟩) (some ⟨6, 6, ")"⟩) none none
    (some ⟨0, 2, "sum"⟩) (some (some argsXTrail, none)) none [] []

/-- The CST of the definition x = 42: identifier terminal, equals
terminal, number literal at offset 4. -/
def defX42 : CST :=
  mkCST "definition" [tokNode ⟨0, 0, "x"⟩, tokNode ⟨2, 2, "="⟩, numberCST 4 "42"]
    "x = 42" (some ⟨0, 0, "x"⟩) (some ⟨4, 5, "42"⟩)

/-- An object context with three keys (foo, bar, baz) but only two
parallel value nodes, exercising the defensive skip of the third pair. -/
def objCtx : CST :=
  .mk "" [] "" none none none none none none none
    [⟨1, 3, "foo"⟩, ⟨8, 10, "bar"⟩, ⟨15, 17, "baz"⟩]
    [numberCST 6 "1", varCST 13 "x"]

/-- The CST of an object expression wrapping objCtx. -/
def objCST : CST :=
  mkCST "object" [objCtx] "\x7bfoo: 1, bar: x, baz\x7d"
    (some ⟨0, 0, "\x7b"⟩) (some ⟨20, 20, "\x7d"⟩)

/-- A CST node of an unrecognized kind carrying a parser exception
payload. -/
def badExprCST : CST :=
  .mk "broken" [] "?" (some ⟨0, 0, "?"⟩) (some ⟨0, 0, "?"⟩) none
    (some "mismatched input at 0") none none none [] []

/-- State-evolution contract of one builder call: the id counter never
decreases; the nodes list only grows, every appended node's id was minted
by this call (between the initial and final counter values) and the
appended ids are pairwise distinct; the inputs list only grows, every
appended input is a Var node with a freshly minted id and the appended
ids are strictly increasing; the token list only grows. -/
def StepOK (st st2 : BState) : Prop :=
  st.nodeId ≤ st2.nodeId ∧
  (∃ ds, st2.nodes = st.nodes ++ ds ∧
    (∀ n ∈ ds, st.nodeId ≤ n.id ∧ n.id < st2.nodeId) ∧
    (ds.map Node.id).Nodup) ∧
  (∃ di, st2.inputs = st.inputs ++ di ∧
    (∀ n ∈ di, n.isVar = true ∧ st.nodeId ≤ n.id ∧ n.id < st2.nodeId) ∧
    List.Chain' (· < ·) (di.map Node.id)) ∧
  (∃ dt, st2.tokens = st.tokens ++ dt)

/-- Default entry used by positional lookups in ObjectBuildOK (the bound
on the index keeps it from ever being read). -/
def noEntry : String × Node := ("", .errorNode 0 none none "")

/-- Default symbol used by positional lookups in ObjectBuildOK. -/
def noSym : Symb := ⟨0, 0, ""⟩

/-- Default CST node used by positional lookups in ObjectBuildOK. -/
def noCST : CST := mkCST "" [] "" none none

/-- What a successful build of an object CST node with context ctx
guarantees, for the builder step function f: the result is an Object node
whose entries pair each key token with the node built by f from exactly
its parallel value CST, in insertion order. The states sts trace the
left-to-right threading: entry i's key text is that of key i, and its
value is f's output on value CST i, run from the state reached after
entries 0..i-1 with key token i pushed (sts lists the state before each
key attempt that has a value, ending in the loop state after the last
kept pair). Exactly the first min(|keys|, |vals|) pairs are kept - a pair
whose parallel value is absent is skipped - yet every remaining key still
pushes its key Token (the loop's final state st1 is the fold of those
leftover pushes), the built Object node carries st1's counter value as
its id and is appended to the node list, and the appended tokens contain
one key Token per key attempt, in order. -/
def ObjectBuildOK (f : BState → CST → Except String (Node × BState))
    (st : BState) (ctx : CST) (n : Node) (st2 : BState) : Prop :=
  ∃ (s e : Option Int) (entries : List (String × Node)) (st1 : BState)
    (sts : List BState),
    n = Node.objectNode st1.nodeId s e entries ∧
    st2 = pushNode (bump st1) n ∧
    entries.length = min ctx.keys.length ctx.vals.length ∧
    entries.map Prod.fst = (ctx.keys.take ctx.vals.length).map Symb.text ∧
    sts.length = entries.length + 1 ∧
    sts.getD 0 initialState = st ∧
    st1 = (ctx.keys.drop entries.length).foldl
      (fun sAcc k => pushToken sAcc (Token.ofSym "key" k))
      (sts.getD entries.length initialState) ∧
    (∀ i, i < entries.length →
      (entries.getD i noEntry).1 = (ctx.keys.getD i noSym).text ∧
      f (pushToken (sts.getD i initialState)
          (Token.ofSym "key" (ctx.keys.getD i noSym)))
        (ctx.vals.getD i noCST) =
        .ok ((entries.getD i noEntry).2, sts.getD (i + 1) initialState)) ∧
    (∃ dt, st2.tokens = st.tokens ++ dt ∧
      (ctx.keys.map (Token.ofSym "key")).Sublist dt)

/-- Inversion of Except bind on a successful result. -/
theorem bind_ok_iff {α β : Type} {m : Except String α} {g : α → Except String β}
    {b : β} : (m >>= g) = .ok b ↔ ∃ a, m = .ok a ∧ g a = .ok b := by
  cases m <;> simp [Bind.bind, Except.bind]

/-- Sizes add over list append. -/
theorem sizeL_append (a b : List Node) :
    Node.sizeL (a ++ b) = Node.sizeL a + Node.sizeL b := by
  induction a with
  | nil => simp [Node.sizeL]
  | cons x xs ih => simp [Node.sizeL, ih]; omega

/-- Entry-value sizes agree with the pair-list size. -/
theorem sizeL_map_snd (es : List (String × Node)) :
    Node.sizeL (es.map (fun p => p.2)) = Node.sizeP es := by
  induction es with
  | nil => simp [Node.sizeL, Node.sizeP]
  | cons p ps ih => simp [Node.sizeL, Node.sizeP, ih]

/-- Every node has positive size. -/
theorem size_pos (n : Node) : 0 < Node.size n := by
  cases n <;> simp [Node.size]

/-- A node's size is one more than the total size of its walker children. -/
theorem size_eq_children (n : Node) :
    Node.size n = 1 + Node.sizeL (walkChildren n) := by
  cases n <;> simp [Node.size, walkChildren, Node.sizeL, sizeL_map_snd]

/-- Pre-order of entry values agrees with the pair-list pre-order. -/
theorem preorderL_map_snd (es : List (String × Node)) :
    preorderL (es.map (fun p => p.2)) = preorderP es := by
  induction es with
  | nil => simp [preorderL, preorderP]
  | cons p ps ih => simp [preorderL, preorderP, ih]

/-- A pre-order listing is the node followed by the pre-order listing of
its walker children. -/
theorem preorder_eq_cons (n : Node) :
    preorder n = n :: preorderL (walkChildren n) := by
  cases n <;> simp [preorder, preorderL, walkChildren, preorderL_map_snd]

/-- Pre-order distributes over list append. -/
theorem preorderL_append (a b : List Node) :
    preorderL (a ++ b) = preorderL a ++ preorderL b := by
  induction a with
  | nil => simp [preorderL]
  | cons x xs ih => simp [preorderL, ih]

/-- The iterative stack loop of walk.js flattens the pending stack in
pre-order. -/
theorem walkAux_eq_preorderL :
    ∀ k stack, Node.sizeL stack ≤ k → walkAux stack = preorderL stack := by
  intro k
  induction k with
  | zero =>
    intro stack h
    cases stack with
    | nil => simp [walkAux, preorderL]
    | cons n rest =>
      exfalso
      have := size_pos n
      simp [Node.sizeL] at h
      omega
  | succ k ih =>
    intro stack h
    cases stack with
    | nil => simp [walkAux, preorderL]
    | cons n rest =>
      have hsz : Node.sizeL (walkChildren n ++ rest) ≤ k := by
        rw [sizeL_append]
        have h1 : Node.sizeL (walkChildren n) < Node.size n := by
          have := size_eq_children n
          omega
        simp [Node.sizeL] at h
        omega
      calc walkAux (n :: rest) = n :: walkAux (walkChildren n ++ rest) := by
            rw [walkAux]
        _ = n :: preorderL (walkChildren n ++ rest) := by rw [ih _ hsz]
        _ = n :: (preorderL (walkChildren n) ++ preorderL rest) := by
            rw [preorderL_append]
        _ = preorder n ++ preorderL rest := by rw [preorder_eq_cons]; rfl
        _ = preorderL (n :: rest) := by rw [preorderL]

/-- The length of a pre-order flattening is the total tree size. -/
theorem preorderL_length :
    ∀ k l, Node.sizeL l ≤ k → (preorderL l).length = Node.sizeL l := by
  intro k
  induction k with
  | zero =>
    intro l h
    cases l with
    | nil => simp [preorderL, Node.sizeL]
    | cons n ns =>
      exfalso
      have := size_pos n
      simp [Node.sizeL] at h
      omega
  | succ k ih =>
    intro l h
    cases l with
    | nil => simp [preorderL, Node.sizeL]
    | cons n ns =>
      simp only [Node.sizeL] at h
      have h1 : Node.sizeL (walkChildren n) < Node.size n := by
        have := size_eq_children n
        omega
      have hpos := size_pos n
      have hc : (preorderL (walkChildren n)).length = Node.sizeL (walkChildren n) :=
        ih _ (by omega)
      have hn : (preorderL ns).length = Node.sizeL ns := ih _ (by omega)
      simp only [preorderL, preorder_eq_cons, List.length_append, List.length_cons,
        Node.sizeL, hc, hn]
      have := size_eq_children n
      omega

/-- C3: walk(ast, visit) invokes visit on every node exactly once, in
pre-order (each node before its children), with children enumerated in
source left-to-right order: Definition yields its bound expression,
FunctionCall yields its positional arguments left to right (named
arguments and the name are not traversed), Array yields its values left
to right, Object yields each entry's value (not its key) left to right,
and all other kinds are leaves. Formally: the visit sequence of the
iterative walker equals the canonical pre-order flattening under that
child enumeration, and its length is the number of enumerated tree
nodes (so each is visited exactly once). -/
theorem c3_walk_is_preorder (root : Node) :
    walk root = preorder root ∧ (walk root).length = Node.size root := by
  have h1 : walk root = preorder root := by
    have h := walkAux_eq_preorderL (Node.sizeL [root]) [root] (le_refl _)
    rw [walk, h]
    simp [preorderL]
  refine ⟨h1, ?_⟩
  rw [h1]
  have h := preorderL_length (Node.sizeL [root]) [root] (le_refl _)
  simp [preorderL, Node.sizeL] at h
  exact h

/-- C10: the walker has no child-enumeration case for the pipe kind, so a
PipeOp behaves as a childless leaf: walking a PipeOp visits the PipeOp
node itself and never visits its left or right operand (even though the
builder attaches both built operand subtrees to it). -/
theorem c10_pipe_walks_as_leaf (i : Nat) (s e : Option Int) (l r : Node) :
    walk (.pipeOp i s e l r) = [.pipeOp i s e l r] ∧
    l ∉ walk (.pipeOp i s e l r) ∧ r ∉ walk (.pipeOp i s e l r) := by
  have hw : walk (Node.pipeOp i s e l r) = [Node.pipeOp i s e l r] := by
    rw [walk, walkAux]
    simp [walkChildren, walkAux]
  refine ⟨hw, ?_, ?_⟩
  · rw [hw]
    simp only [List.mem_singleton]
    intro heq
    have hsz := congrArg sizeOf heq
    simp at hsz
    omega
  · rw [hw]
    simp only [List.mem_singleton]
    intro heq
    have hsz := congrArg sizeOf heq
    simp at hsz

/-- C1: cell and range productions are recognized structurally and
resolved via the Address Resolver: the column index is the zero-based
base-26 letter value and the row index is the decimal digits minus one;
building B3 yields a CellRef with row 2 and col 1, and building A1:C4
yields a RangeRef with startRow 0, startCol 0, endRow 3, endCol 2. -/
theorem c1_cell_range_resolution :
    columnToIndex "B" = 1 ∧ rowToIndex "3" = 2 ∧
    parseCell "B3" = (2, 1) ∧
    rootOf (createNodeTree 20 cellB3) =
      some (.cellRef 0 (some 0) (some 2) 2 1) ∧
    rootOf (createNodeTree 20 rangeA1C4) =
      some (.rangeRef 0 (some 0) (some 5) 0 0 3 2) :=
  ⟨rfl, rfl, rfl, rfl, rfl⟩

/-- C4: every binary-operator CST node lowers to a two-argument
FunctionCall named after the operator, recursing into the operand
subtrees the CST nesting already fixed: building 1+2, 2*3, 5-3, 6/3 and
2^3 yields two-argument FunctionCalls named add, multiply, subtract,
divide and pow respectively, each with two Number children in source
order. -/
theorem c4_binary_operator_lowering :
    rootOf (createNodeTree 20 (binCST "add" "1" "+" "2")) =
      some (.functionCall 2 (some 0) (some 3) "add"
        [.numberNode 0 (some 0) (some 1) (some 1),
         .numberNode 1 (some 2) (some 3) (some 2)] []) ∧
    rootOf (createNodeTree 20 (binCST "multiply" "2" "*" "3")) =
      some (.functionCall 2 (some 0) (some 3) "multiply"
        [.numberNode 0 (some 0) (some 1) (some 2),
         .numberNode 1 (some 2) (some 3) (some 3)] []) ∧
    rootOf (createNodeTree 20 (binCST "subtract" "5" "-" "3")) =
      some (.functionCall 2 (some 0) (some 3) "subtract"
        [.numberNode 0 (some 0) (some 1) (some 5),
         .numberNode 1 (some 2) (some 3) (some 3)] []) ∧
    rootOf (createNodeTree 20 (binCST "divide" "6" "/" "3")) =
      some (.functionCall 2 (some 0) (some 3) "divide"
        [.numberNode 0 (some 0) (some 1) (some 6),
         .numberNode 1 (some 2) (some 3) (some 3)] []) ∧
    rootOf (createNodeTree 20 (binCST "pow" "2" "^" "3")) =
      some (.functionCall 2 (some 0) (some 3) "pow"
        [.numberNode 0 (some 0) (some 1) (some 2),
         .numberNode 1 (some 2) (some 3) (some 3)] []) :=
  ⟨rfl, rfl, rfl, rfl, rfl⟩

/-- C5: in a call argument sequence, a comma that opens the sequence or
immediately follows another comma synthesizes an EmptyArgument at that
comma's own span, and a trailing comma synthesizes one final
EmptyArgument: building sum(x,,y) produces an EmptyArgument between x
and y spanning the second comma (offsets 6 to 7), and building sum(x,)
produces a trailing EmptyArgument after x spanning the comma (offsets 5
to 6); the other positions are built by recursive descent into Var
nodes. -/
theorem c5_empty_argument_synthesis :
    rootOf (createNodeTree 20 sumXEY) =
      some (.functionCall 3 (some 0) (some 9) "sum"
        [.var 0 (some 4) (some 5) "x",
         .emptyArgument 1 (some 6) (some 7),
         .var 2 (some 7) (some 8) "y"] []) ∧
    rootOf (createNodeTree 20 sumXTrail) =
      some (.functionCall 2 (some 0) (some 7) "sum"
        [.var 0 (some 4) (some 5) "x",
         .emptyArgument 1 (some 5) (some 6)] []) :=
  ⟨rfl, rfl⟩

/-- Counterexample to C6 as stated: building the definition x = 42 takes
the Definition's id (0) before building its bound Number child (id 1), and
the child is pushed onto the flat nodes list first, so the id sequence of
the returned nodes list is [1, 0], which is not strictly increasing. -/
theorem c6_cex_definition_id_order :
    nodeIds (createNodeTree 20 defX42) = [1, 0] ∧
    ¬ List.Chain' (· < ·) (nodeIds (createNodeTree 20 defX42)) := by
  have h : nodeIds (createNodeTree 20 defX42) = [1, 0] := rfl
  refine ⟨h, ?_⟩
  rw [h]
  simp [List.chain'_cons]

/-- C7 (amended): Token construction fails with an Illegal-argument error
exactly when the kind is not a string or the symbol's start or stop offset
is not numeric; every successfully constructed token has endPos equal to
the symbol's inclusive stop offset plus one (so the end offset is
exclusive), and start is at most endPos whenever the symbol satisfies
start less-or-equal stop + 1 - which the constructor itself does not
check, so tokens built from an inverted symbol violate it (see the
counterexample). -/
theorem c7_token_construct_contract (ty : JsVal) (symbol : JsSym) :
    ((∃ msg, Token.construct ty symbol = .error msg) ↔
      ¬(isString ty = true ∧ isNumber symbol.start = true ∧
        isNumber symbol.stop = true)) ∧
    (∀ tk, Token.construct ty symbol = .ok tk →
      (∃ a b, symbol.start = JsVal.num a ∧ symbol.stop = JsVal.num b ∧
        tk.start = a ∧ tk.endPos = b + 1 ∧ (a ≤ b + 1 → tk.start ≤ tk.endPos))) := by
  obtain ⟨s0, p0, tx⟩ := symbol
  cases ty <;> cases s0 <;> cases p0 <;>
    simp [Token.construct, isString, isNumber]

/-- Counterexample to C7 as stated: the constructor never compares start
with stop, so a symbol with start 5 and stop 1 yields a token whose start
(5) exceeds its exclusive end offset (2); the claim's start-less-or-equal-
end consequence fails for it. -/
theorem c7_cex_token_start_exceeds_end :
    Token.construct (.str "key") ⟨.num 5, .num 1, none⟩ =
      .ok ⟨"key", 5, 2, none⟩ ∧
    ¬((Token.mk "key" 5 2 none).start ≤ (Token.mk "key" 5 2 none).endPos) :=
  ⟨rfl, by decide⟩

/-- Witness for C7: a concrete successful construction, with the amended
contract instantiated at it. -/
theorem c7_witness :
    (∃ a b, (JsSym.mk (.num 0) (.num 2) (some "foo")).start = JsVal.num a ∧
      (JsSym.mk (.num 0) (.num 2) (some "foo")).stop = JsVal.num b ∧
      (Token.mk "output-name" 0 3 (some "foo")).start = a ∧
      (Token.mk "output-name" 0 3 (some "foo")).endPos = b + 1 ∧
      (a ≤ b + 1 → (Token.mk "output-name" 0 3 (some "foo")).start ≤
        (Token.mk "output-name" 0 3 (some "foo")).endPos)) :=
  (c7_token_construct_contract (.str "output-name")
    ⟨.num 0, .num 2, some "foo"⟩).2 ⟨"output-name", 0, 3, some "foo"⟩ rfl

/-- Coherence of the builder's token pushes with the Token constructor:
a string kind and an ANTLR symbol with numeric offsets always construct
successfully, yielding exactly the token the builder records. -/
theorem token_ofSym_agrees (kind : String) (s : Symb) :
    Token.construct (.str kind) ⟨.num s.start, .num s.stop, some s.text⟩ =
      .ok (Token.ofSym kind s) := rfl

/-- C2: a CST node whose kind the builder does not recognize never makes
building throw; it becomes an ErrorNode embedded at that node's computed
source position, whose message is the node's exception payload when one
is present and the literal string Parser error. otherwise; the node is
appended to the flat node list, so the result is complete. -/
theorem c2_unrecognized_becomes_error_node (fuel : Nat) (st : BState) (ast : CST)
    (h : ast.type ∉ recognizedKinds) :
    createFromAST (fuel + 1) st ast =
      .ok (Node.errorNode st.nodeId (_getStartStop ast).1 (_getStartStop ast).2
            (ast.exception.getD "Parser error."),
          pushNode (bump st)
            (Node.errorNode st.nodeId (_getStartStop ast).1 (_getStartStop ast).2
              (ast.exception.getD "Parser error."))) := by
  show createStep (createFromAST fuel) st ast = _
  unfold createStep
  split
  all_goals try (rename_i heq; exact absurd (by rw [heq]; decide) h)
  cases hx : ast.exception <;> simp [finish, Option.getD, hx]

/-- Witness for C2: a concrete unrecognized CST node (kind broken,
carrying a parser exception payload) builds without error into an
ErrorNode holding that payload. -/
theorem c2_witness :
    badExprCST.type ∉ recognizedKinds ∧
    createFromAST 1 initialState badExprCST =
      .ok (Node.errorNode initialState.nodeId (_getStartStop badExprCST).1
            (_getStartStop badExprCST).2 (badExprCST.exception.getD "Parser error."),
          pushNode (bump initialState)
            (Node.errorNode initialState.nodeId (_getStartStop badExprCST).1
              (_getStartStop badExprCST).2
              (badExprCST.exception.getD "Parser error."))) :=
  ⟨by decide, c2_unrecognized_becomes_error_node 0 initialState badExprCST (by decide)⟩

/-- Membership follows from being the optional last element. -/
theorem mem_of_getLast {α : Type} {l : List α} {x : α} (h : x ∈ l.getLast?) :
    x ∈ l := by
  obtain ⟨hne, hx⟩ := List.mem_getLast?_eq_getLast h
  rw [hx]
  exact List.getLast_mem hne

/-- StepOK is reflexive (an empty step). -/
theorem stepOK_refl (st : BState) : StepOK st st := by
  refine ⟨le_refl _, ⟨[], by simp, by simp, by simp⟩,
    ⟨[], by simp, by simp, by simp⟩, ⟨[], by simp⟩⟩

/-- StepOK composes over sequential execution. -/
theorem stepOK_trans {a b c : BState} (h1 : StepOK a b) (h2 : StepOK b c) :
    StepOK a c := by
  obtain ⟨hn1, ⟨ds1, hds1, hb1, hnd1⟩, ⟨di1, hdi1, hib1, hch1⟩, ⟨dt1, hdt1⟩⟩ := h1
  obtain ⟨hn2, ⟨ds2, hds2, hb2, hnd2⟩, ⟨di2, hdi2, hib2, hch2⟩, ⟨dt2, hdt2⟩⟩ := h2
  refine ⟨le_trans hn1 hn2, ⟨ds1 ++ ds2, ?_, ?_, ?_⟩,
    ⟨di1 ++ di2, ?_, ?_, ?_⟩, ⟨dt1 ++ dt2, ?_⟩⟩
  · rw [hds2, hds1, List.append_assoc]
  · intro n hn
    rcases List.mem_append.mp hn with h | h
    · obtain ⟨l, u⟩ := hb1 n h
      exact ⟨l, lt_of_lt_of_le u hn2⟩
    · obtain ⟨l, u⟩ := hb2 n h
      exact ⟨le_trans hn1 l, u⟩
  · rw [List.map_append]
    refine hnd1.append hnd2 ?_
    intro x hx hy
    obtain ⟨n1, hm1, he1⟩ := List.mem_map.mp hx
    obtain ⟨n2, hm2, he2⟩ := List.mem_map.mp hy
    have u1 := (hb1 n1 hm1).2
    have u2 := (hb2 n2 hm2).1
    omega
  · rw [hdi2, hdi1, List.append_assoc]
  · intro n hn
    rcases List.mem_append.mp hn with h | h
    · obtain ⟨v, l, u⟩ := hib1 n h
      exact ⟨v, l, lt_of_lt_of_le u hn2⟩
    · obtain ⟨v, l, u⟩ := hib2 n h
      exact ⟨v, le_trans hn1 l, u⟩
  · rw [List.map_append]
    refine List.Chain'.append hch1 hch2 ?_
    intro x hx y hy
    have hx2 := mem_of_getLast hx
    have hy2 := List.mem_of_mem_head? hy
    obtain ⟨n1, hm1, he1⟩ := List.mem_map.mp hx2
    obtain ⟨n2, hm2, he2⟩ := List.mem_map.mp hy2
    have u1 := (hib1 n1 hm1).2.2
    have u2 := (hib2 n2 hm2).2.1
    omega
  · rw [hdt2, hdt1, List.append_assoc]

/-- Incrementing the id counter is a step. -/
theorem stepOK_bump (st : BState) : StepOK st (bump st) := by
  refine ⟨by simp [bump], ⟨[], by simp [bump], by simp, by simp⟩,
    ⟨[], by simp [bump], by simp, by simp⟩, ⟨[], by simp [bump]⟩⟩

/-- Pushing a token is a step. -/
theorem stepOK_pushToken (st : BState) (tk : Token) :
    StepOK st (pushToken st tk) := by
  refine ⟨by simp [pushToken], ⟨[], by simp [pushToken], by simp, by simp⟩,
    ⟨[], by simp [pushToken], by simp, by simp⟩, ⟨[tk], by simp [pushToken]⟩⟩

/-- Appending a node whose id is the current counter value and bumping the
counter extends a step (the pattern of every case that builds its children
before taking its own id). -/
theorem stepOK_fresh {a b : BState} (h : StepOK a b) (n : Node)
    (hid : n.id = b.nodeId) : StepOK a (pushNode (bump b) n) := by
  obtain ⟨hn, ⟨ds, hds, hb, hnd⟩, ⟨di, hdi, hib, hch⟩, ⟨dt, hdt⟩⟩ := h
  refine ⟨?_, ⟨ds ++ [n], ?_, ?_, ?_⟩, ⟨di, ?_, ?_, hch⟩, ⟨dt, ?_⟩⟩
  · simp [pushNode, bump]
    omega
  · simp [pushNode, bump, hds]
  · intro m hm
    rcases List.mem_append.mp hm with hm | hm
    · obtain ⟨l, u⟩ := hb m hm
      simp [pushNode, bump]
      omega
    · simp at hm
      subst hm
      simp [pushNode, bump, hid]
      omega
  · rw [List.map_append]
    refine hnd.append (by simp) ?_
    intro x hx hy
    obtain ⟨n1, hm1, he1⟩ := List.mem_map.mp hx
    have u1 := (hb n1 hm1).2
    simp at hy
    omega
  · simp [pushNode, bump, hdi]
  · intro m hm
    obtain ⟨v, l, u⟩ := hib m hm
    simp [pushNode, bump]
    exact ⟨v, l, by omega⟩
  · simp [pushNode, bump, hdt]

/-- Appending a node whose id was taken just before a sub-build extends a
step (the pattern of Definition, PipeOp and NamedArgument, which take
their id and bump the counter before building their children). -/
theorem stepOK_finishPre {a b : BState} (h : StepOK (bump a) b) (n : Node)
    (hid : n.id = a.nodeId) : StepOK a (pushNode b n) := by
  obtain ⟨hn, ⟨ds, hds, hb, hnd⟩, ⟨di, hdi, hib, hch⟩, ⟨dt, hdt⟩⟩ := h
  simp [bump] at hn hds hdi hdt hb hib
  refine ⟨?_, ⟨ds ++ [n], ?_, ?_, ?_⟩, ⟨di, ?_, ?_, hch⟩, ⟨dt, ?_⟩⟩
  · simp [pushNode]
    omega
  · simp [pushNode, hds]
  · intro m hm
    rcases List.mem_append.mp hm with hm | hm
    · obtain ⟨l, u⟩ := hb m hm
      simp [pushNode]
      omega
    · simp at hm
      subst hm
      simp [pushNode, hid]
      omega
  · rw [List.map_append]
    refine hnd.append (by simp) ?_
    intro x hx hy
    obtain ⟨n1, hm1, he1⟩ := List.mem_map.mp hx
    have u1 := (hb n1 hm1).1
    simp at hy
    omega
  · simp [pushNode, hdi]
  · intro m hm
    obtain ⟨v, l, u⟩ := hib m hm
    simp [pushNode]
    exact ⟨v, by omega, u⟩
  · simp [pushNode, hdt]

/-- The var case is a step: mint an id, push the token, append the node to
both the inputs list and the nodes list. -/
theorem stepOK_var (st : BState) (tk : Token) (n : Node)
    (hv : n.isVar = true) (hid : n.id = st.nodeId) :
    StepOK st (pushNode (pushInput (pushToken (bump st) tk) n) n) := by
  refine ⟨?_, ⟨[n], ?_, ?_, by simp⟩, ⟨[n], ?_, ?_, by simp⟩, ⟨[tk], ?_⟩⟩
  · simp [pushNode, pushInput, pushToken, bump]
  · simp [pushNode, pushInput, pushToken, bump]
  · intro m hm
    simp at hm
    subst hm
    simp [pushNode, pushInput, pushToken, bump, hid]
  · simp [pushNode, pushInput, pushToken, bump]
  · intro m hm
    simp at hm
    subst hm
    simp [pushNode, pushInput, pushToken, bump, hid, hv]
  · simp [pushNode, pushInput, pushToken, bump]

/-- exprSequence preserves the step contract. -/
theorem exprSequenceF_stepOK {f : BState → CST → Except String (Node × BState)}
    (hf : ∀ st c n st2, f st c = .ok (n, st2) → StepOK st st2) :
    ∀ items st l st2, exprSequenceF f st items = .ok (l, st2) → StepOK st st2 := by
  intro items
  induction items with
  | nil =>
    intro st l st2 h
    simp [exprSequenceF] at h
    obtain ⟨h1, h2⟩ := h
    subst h2
    exact stepOK_refl st
  | cons c cs ih =>
    intro st l st2 h
    simp only [exprSequenceF] at h
    rw [bind_ok_iff] at h
    obtain ⟨⟨n1, st1⟩, h1, h⟩ := h
    rw [bind_ok_iff] at h
    obtain ⟨⟨l2, st3⟩, h2, h⟩ := h
    simp at h
    obtain ⟨h3, h4⟩ := h
    subst h4
    exact stepOK_trans (hf _ _ _ _ h1) (ih _ _ _ h2)

/-- The argSequence scanning loop preserves the step contract. -/
theorem argLoopF_stepOK {f : BState → CST → Except String (Node × BState)}
    (hf : ∀ st c n st2, f st c = .ok (n, st2) → StepOK st st2) :
    ∀ items st last l last2 st2,
      argLoopF f st last items = .ok (l, last2, st2) → StepOK st st2 := by
  intro items
  induction items with
  | nil =>
    intro st last l last2 st2 h
    simp [argLoopF] at h
    obtain ⟨h1, h2, h3⟩ := h
    subst h3
    exact stepOK_refl st
  | cons n rest ih =>
    intro st last l last2 st2 h
    simp only [argLoopF] at h
    split at h
    · split at h
      · rw [bind_ok_iff] at h
        obtain ⟨⟨l1, last1, st1⟩, h1, h⟩ := h
        simp at h
        obtain ⟨h2, h3, h4⟩ := h
        subst h4
        exact ih _ _ _ _ _ h1
      · rw [bind_ok_iff] at h
        obtain ⟨⟨l1, last1, st1⟩, h1, h⟩ := h
        simp at h
        obtain ⟨h2, h3, h4⟩ := h
        subst h4
        exact stepOK_trans (stepOK_bump st) (ih _ _ _ _ _ h1)
    · rw [bind_ok_iff] at h
      obtain ⟨⟨nd, st1⟩, h1, h⟩ := h
      rw [bind_ok_iff] at h
      obtain ⟨⟨l1, last1, st3⟩, h2, h⟩ := h
      simp at h
      obtain ⟨h3, h4, h5⟩ := h
      subst h5
      exact stepOK_trans (hf _ _ _ _ h1) (ih _ _ _ _ _ h2)

/-- argSequence preserves the step contract. -/
theorem argSequenceF_stepOK {f : BState → CST → Except String (Node × BState)}
    (hf : ∀ st c n st2, f st c = .ok (n, st2) → StepOK st st2) :
    ∀ st argsNode l st2,
      argSequenceF f st argsNode = .ok (l, st2) → StepOK st st2 := by
  intro st argsNode l st2 h
  cases argsNode with
  | none =>
    simp [argSequenceF] at h
    obtain ⟨h1, h2⟩ := h
    subst h2
    exact stepOK_refl st
  | some a =>
    simp only [argSequenceF] at h
    rw [bind_ok_iff] at h
    obtain ⟨⟨result, last, st1⟩, h1, h⟩ := h
    have hloop := argLoopF_stepOK hf _ _ _ _ _ _ h1
    split at h
    · simp at h
      obtain ⟨h2, h3⟩ := h
      subst h3
      exact hloop
    · split at h
      · exact absurd h (by simp)
      · split at h
        · simp at h
          obtain ⟨h2, h3⟩ := h
          subst h3
          exact stepOK_trans hloop (stepOK_bump st1)
        · simp at h
          obtain ⟨h2, h3⟩ := h
          subst h3
          exact hloop

/-- The object key/value loop preserves the step contract. -/
theorem objEntriesF_stepOK {f : BState → CST → Except String (Node × BState)}
    (hf : ∀ st c n st2, f st c = .ok (n, st2) → StepOK st st2) :
    ∀ keys vals st entries st2,
      objEntriesF f st keys vals = .ok (entries, st2) → StepOK st st2 := by
  intro keys
  induction keys with
  | nil =>
    intro vals st entries st2 h
    simp [objEntriesF] at h
    obtain ⟨h1, h2⟩ := h
    subst h2
    exact stepOK_refl st
  | cons k ks ih =>
    intro vals st entries st2 h
    simp only [objEntriesF] at h
    split at h
    · exact stepOK_trans (stepOK_pushToken st _) (ih _ _ _ _ h)
    · rw [bind_ok_iff] at h
      obtain ⟨⟨n1, stA⟩, h1, h⟩ := h
      rw [bind_ok_iff] at h
      obtain ⟨⟨rest1, stB⟩, h2, h⟩ := h
      simp at h
      obtain ⟨h3, h4⟩ := h
      subst h4
      exact stepOK_trans (stepOK_pushToken st _)
        (stepOK_trans (hf _ _ _ _ h1) (ih _ _ _ _ h2))

/-- The id of a constructed FunctionCall is the id passed to it. -/
theorem mkFunctionCall_id (i : Nat) (s e : Option Int) (nm : String)
    (a na : Option (List Node)) : (mkFunctionCall i s e nm a na).id = i := rfl

/-- The call case preserves the step contract. -/
theorem callCaseF_stepOK {f : BState → CST → Except String (Node × BState)}
    (hf : ∀ st c n st2, f st c = .ok (n, st2) → StepOK st st2) :
    ∀ st s e ast n st2,
      callCaseF f st s e ast = .ok (n, st2) → StepOK st st2 := by
  intro st s e ast n st2 h
  simp only [callCaseF] at h
  cases harg : ast.args with
  | none =>
    rw [harg] at h
    rw [bind_ok_iff] at h
    obtain ⟨y, hy, h⟩ := h
    cases hy
    cases hname : ast.name with
    | none =>
      rw [hname] at h
      simp [finish] at h
      obtain ⟨h2, h3⟩ := h
      subst h3
      exact stepOK_fresh (stepOK_refl st) _ (mkFunctionCall_id _ _ _ _ _ _)
    | some tk =>
      rw [hname] at h
      simp [finish] at h
      obtain ⟨h2, h3⟩ := h
      subst h3
      exact stepOK_fresh (stepOK_pushToken st _) _ (mkFunctionCall_id _ _ _ _ _ _)
  | some ctx =>
    rw [harg] at h
    rw [bind_ok_iff] at h
    obtain ⟨⟨a1, stA⟩, hA, h⟩ := h
    rw [bind_ok_iff] at h
    obtain ⟨⟨na1, stB⟩, hB, h⟩ := h
    rw [bind_ok_iff] at h
    obtain ⟨y, hy, h⟩ := h
    cases hy
    have hstep1 : StepOK st stB :=
      stepOK_trans (argSequenceF_stepOK hf _ _ _ _ hA)
        (argSequenceF_stepOK hf _ _ _ _ hB)
    cases hname : ast.name with
    | none =>
      rw [hname] at h
      simp [finish] at h
      obtain ⟨h2, h3⟩ := h
      subst h3
      exact stepOK_fresh hstep1 _ (mkFunctionCall_id _ _ _ _ _ _)
    | some tk =>
      rw [hname] at h
      simp [finish] at h
      obtain ⟨h2, h3⟩ := h
      subst h3
      exact stepOK_fresh (stepOK_trans hstep1 (stepOK_pushToken stB _)) _
        (mkFunctionCall_id _ _ _ _ _ _)

/-- One dispatch step preserves the step contract, assuming every
recursive descent does. -/
theorem createStep_stepOK {f : BState → CST → Except String (Node × BState)}
    (hf : ∀ st c n st2, f st c = .ok (n, st2) → StepOK st st2) :
    ∀ st ast n st2, createStep f st ast = .ok (n, st2) → StepOK st st2 := by
  intro st ast n st2 h
  unfold createStep at h
  split at h
  -- call
  all_goals try (exact callCaseF_stepOK hf _ _ _ _ _ _ h)
  -- transparent unwrapping: evaluation, simple, group
  all_goals try (rw [bind_ok_iff] at h; obtain ⟨c, hc, h⟩ := h; exact hf _ _ _ _ h)
  -- _call
  all_goals try
    (rw [bind_ok_iff] at h
     obtain ⟨c, hc, h⟩ := h
     exact callCaseF_stepOK hf _ _ _ _ _ _ h)
  -- definition and named-argument: token push, id taken, then child build
  all_goals try
    (simp only [bind_ok_iff] at h
     obtain ⟨lhs, hlhs, lsym, hsym, c2, hc2, ⟨expr, st3⟩, hexpr, h⟩ := h
     simp [finish] at h
     obtain ⟨h2, h3⟩ := h
     subst h3
     exact stepOK_trans (stepOK_pushToken st _)
       (stepOK_finishPre (hf _ _ _ _ hexpr) _ rfl))
  -- select_id: child build, synthesized string node, then the call node
  all_goals try
    (simp only [bind_ok_iff] at h
     obtain ⟨c0, hc0, ⟨value, st1⟩, hval, c2, hc2, h⟩ := h
     simp [finish] at h
     obtain ⟨h2, h3⟩ := h
     subst h3
     refine stepOK_fresh (stepOK_fresh (hf _ _ _ _ hval) _ ?_) _ rfl
     rfl)
  -- pipe: id taken first, then both operand builds
  all_goals try
    (simp only [bind_ok_iff] at h
     obtain ⟨c0, hc0, ⟨l1, stl⟩, hl, c2, hc2, ⟨r1, str⟩, hr, h⟩ := h
     simp [finish] at h
     obtain ⟨h2, h3⟩ := h
     subst h3
     exact stepOK_finishPre (stepOK_trans (hf _ _ _ _ hl) (hf _ _ _ _ hr)) _ rfl)
  -- select_expr and the binary operators: two children, sequence, fresh id
  all_goals try
    (simp only [bind_ok_iff] at h
     obtain ⟨c0, hc0, c2, hc2, ⟨args, st1⟩, hargs, h⟩ := h
     simp [finish] at h
     obtain ⟨h2, h3⟩ := h
     subst h3
     exact stepOK_fresh (exprSequenceF_stepOK hf _ _ _ _ hargs) _ rfl)
  -- unary operators and array: one child lookup, sequence, fresh id
  all_goals try
    (simp only [bind_ok_iff] at h
     obtain ⟨c1, hc1, ⟨args, st1⟩, hargs, h⟩ := h
     simp [finish] at h
     obtain ⟨h2, h3⟩ := h
     subst h3
     exact stepOK_fresh (exprSequenceF_stepOK hf _ _ _ _ hargs) _ rfl)
  -- object: context lookup, entry loop, fresh id
  all_goals try
    (simp only [bind_ok_iff] at h
     obtain ⟨ctx, hctx, ⟨entries, st1⟩, hent, h⟩ := h
     simp [finish] at h
     obtain ⟨h2, h3⟩ := h
     subst h3
     exact stepOK_fresh (objEntriesF_stepOK hf _ _ _ _ _ hent) _ rfl)
  -- boolean and string: token child, symbol, token push, fresh id
  all_goals try
    (simp only [bind_ok_iff] at h
     obtain ⟨tok, htok, tsym, hsym, h⟩ := h
     simp [finish] at h
     obtain ⟨h2, h3⟩ := h
     subst h3
     exact stepOK_fresh (stepOK_pushToken st _) _ rfl)
  -- numeric literals (malformed shape or literal token) and the default
  -- error recovery: an inner case split, each side ending in a fresh push
  all_goals try
    (split at h <;>
      first
      | (simp [finish] at h
         obtain ⟨h2, h3⟩ := h
         subst h3
         exact stepOK_fresh (stepOK_refl st) _ rfl)
      | (simp only [bind_ok_iff] at h
         obtain ⟨c0, hc0, tok, htok, tsym, hsym, h⟩ := h
         simp [finish] at h
         obtain ⟨h2, h3⟩ := h
         subst h3
         exact stepOK_fresh (stepOK_pushToken st _) _ rfl))
  -- var: span terminals present or a TypeError
  all_goals try
    (split at h <;>
      first
      | (simp [finish] at h
         obtain ⟨h2, h3⟩ := h
         subst h3
         exact stepOK_var st _ _ rfl rfl)
      | (exact absurd h (by simp)))
  -- cell and range (spec-modelled)
  all_goals try
    (simp [cellCase, finish] at h
     obtain ⟨h2, h3⟩ := h
     subst h3
     exact stepOK_fresh (stepOK_refl st) _ rfl)
  all_goals try
    (simp [rangeCase, finish] at h
     obtain ⟨h2, h3⟩ := h
     subst h3
     exact stepOK_fresh (stepOK_refl st) _ rfl)

/-- The builder preserves the step contract at every fuel. -/
theorem createFromAST_stepOK :
    ∀ fuel st ast n st2,
      createFromAST fuel st ast = .ok (n, st2) → StepOK st st2 := by
  intro fuel
  induction fuel with
  | zero =>
    intro st ast n st2 h
    exact absurd h (by simp [createFromAST])
  | succ fuel ih =>
    intro st ast n st2 h
    exact createStep_stepOK ih st ast n st2 h

/-- C6 (amended): within one build every node id in the returned flat
node list is distinct (each id is minted exactly once by the counter);
the list is in node-completion order, and its id sequence is not
strictly increasing in general, because Definition, PipeOp and
NamedArgument take their id before building their children (see the
counterexample on x = 42). -/
theorem c6_node_ids_distinct (fuel : Nat) (ast : CST) (n : Node) (st2 : BState)
    (h : createNodeTree fuel ast = .ok (n, st2)) :
    (st2.nodes.map Node.id).Nodup := by
  have hs := createFromAST_stepOK fuel initialState ast n st2 h
  obtain ⟨_, ⟨ds, hds, _, hnd⟩, _, _⟩ := hs
  simp [initialState] at hds
  rw [hds]
  exact hnd

/-- Witness for C6 (amended), instantiated at the x = 42 build. -/
theorem c6_witness :
    ((resultOrDefault (createNodeTree 20 defX42)).2.nodes.map Node.id).Nodup :=
  c6_node_ids_distinct 20 defX42 (resultOrDefault (createNodeTree 20 defX42)).1
    (resultOrDefault (createNodeTree 20 defX42)).2 (by rfl)

/-- C9: every element of the returned inputs list is a Var node (no
CellRef, RangeRef or other kind is ever appended to it - only the var
dispatch case pushes to inputs), and its elements appear in creation
order: the id sequence of the inputs list is strictly increasing. -/
theorem c9_inputs_only_vars (fuel : Nat) (ast : CST) (n : Node) (st2 : BState)
    (h : createNodeTree fuel ast = .ok (n, st2)) :
    (∀ m ∈ st2.inputs, m.isVar = true) ∧
    List.Chain' (· < ·) (st2.inputs.map Node.id) := by
  have hs := createFromAST_stepOK fuel initialState ast n st2 h
  obtain ⟨_, _, ⟨di, hdi, hib, hch⟩, _⟩ := hs
  simp [initialState] at hdi
  rw [hdi]
  exact ⟨fun m hm => (hib m hm).1, hch⟩

/-- Witness for C9, instantiated at the sum(x,,y) build (inputs x and y,
ids 0 and 2, in creation order). -/
theorem c9_witness :
    (∀ m ∈ (resultOrDefault (createNodeTree 20 sumXEY)).2.inputs,
      m.isVar = true) ∧
    List.Chain' (· < ·)
      ((resultOrDefault (createNodeTree 20 sumXEY)).2.inputs.map Node.id) :=
  c9_inputs_only_vars 20 sumXEY (resultOrDefault (createNodeTree 20 sumXEY)).1
    (resultOrDefault (createNodeTree 20 sumXEY)).2 (by rfl)

/-- The object key/value loop pairs each key having a parallel value with
that built value, in insertion order, skipping the keys beyond the value
list (which drives nothing else: the loop runs over the keys). -/
theorem objEntriesF_entries {f : BState → CST → Except String (Node × BState)} :
    ∀ keys vals st entries st2,
      objEntriesF f st keys vals = .ok (entries, st2) →
      entries.map Prod.fst = ((keys.take vals.length).map Symb.text) ∧
      entries.length = min keys.length vals.length := by
  intro keys
  induction keys with
  | nil =>
    intro vals st entries st2 h
    simp [objEntriesF] at h
    obtain ⟨h1, h2⟩ := h
    subst h1
    simp
  | cons k ks ih =>
    intro vals st entries st2 h
    simp only [objEntriesF] at h
    split at h
    · obtain ⟨h1, h2⟩ := ih [] _ _ _ h
      simp_all
    · rename_i v vs
      rw [bind_ok_iff] at h
      obtain ⟨⟨n1, stA⟩, h1, h⟩ := h
      rw [bind_ok_iff] at h
      obtain ⟨⟨rest, stB⟩, h2, h⟩ := h
      simp at h
      obtain ⟨h3, h4⟩ := h
      obtain ⟨hm, hl⟩ := ih vs _ _ _ h2
      subst h3
      simp [hm, hl]
      omega

/-- The object key/value loop pushes one key Token per key attempt, in
order, regardless of whether the pair is kept, interleaved with whatever
tokens the value builds push (the builder only ever appends tokens). -/
theorem objEntriesF_tokens {f : BState → CST → Except String (Node × BState)}
    (hf : ∀ st c n st2, f st c = .ok (n, st2) →
      ∃ dt, st2.tokens = st.tokens ++ dt) :
    ∀ keys vals st entries st2,
      objEntriesF f st keys vals = .ok (entries, st2) →
      ∃ dt, st2.tokens = st.tokens ++ dt ∧
        (keys.map (Token.ofSym "key")).Sublist dt := by
  intro keys
  induction keys with
  | nil =>
    intro vals st entries st2 h
    simp [objEntriesF] at h
    obtain ⟨h1, h2⟩ := h
    subst h2
    exact ⟨[], by simp, by simp⟩
  | cons k ks ih =>
    intro vals st entries st2 h
    simp only [objEntriesF] at h
    split at h
    · obtain ⟨dt1, hdt1, hsub⟩ := ih [] _ _ _ h
      refine ⟨Token.ofSym "key" k :: dt1, ?_, ?_⟩
      · simp [pushToken] at hdt1
        simp [hdt1]
      · simp only [List.map_cons]
        exact hsub.cons₂ _
    · rename_i v vs
      rw [bind_ok_iff] at h
      obtain ⟨⟨n1, stA⟩, h1, h⟩ := h
      rw [bind_ok_iff] at h
      obtain ⟨⟨rest, stB⟩, h2, h⟩ := h
      simp at h
      obtain ⟨h3, h4⟩ := h
      subst h4
      obtain ⟨dtf, hdtf⟩ := hf _ _ _ _ h1
      obtain ⟨dt1, hdt1, hsub⟩ := ih vs _ _ _ h2
      refine ⟨Token.ofSym "key" k :: (dtf ++ dt1), ?_, ?_⟩
      · simp [pushToken] at hdtf
        rw [hdt1, hdtf]
        simp
      · simp only [List.map_cons]
        exact (hsub.trans (List.sublist_append_right dtf dt1)).cons₂ _

/-- The object key/value loop builds entry i's value by running the
builder on exactly the i-th value CST, from the state reached after the
previous entries with the i-th key token pushed; the trace sts lists the
loop states (before each kept key attempt, ending after the last kept
pair), and after the entries are exhausted the remaining keys only push
their key tokens, folding into the final loop state. -/
theorem objEntriesF_trace {f : BState → CST → Except String (Node × BState)} :
    ∀ keys vals st entries st2,
      objEntriesF f st keys vals = .ok (entries, st2) →
      ∃ sts : List BState,
        sts.length = entries.length + 1 ∧
        sts.getD 0 initialState = st ∧
        st2 = (keys.drop entries.length).foldl
          (fun sAcc k => pushToken sAcc (Token.ofSym "key" k))
          (sts.getD entries.length initialState) ∧
        ∀ i, i < entries.length →
          (entries.getD i noEntry).1 = (keys.getD i noSym).text ∧
          f (pushToken (sts.getD i initialState)
              (Token.ofSym "key" (keys.getD i noSym)))
            (vals.getD i noCST) =
            .ok ((entries.getD i noEntry).2, sts.getD (i + 1) initialState) := by
  intro keys
  induction keys with
  | nil =>
    intro vals st entries st2 h
    simp [objEntriesF] at h
    obtain ⟨h1, h2⟩ := h
    subst h1
    subst h2
    refine ⟨[st], by simp, by simp, by simp, ?_⟩
    intro i hi
    simp at hi
  | cons k ks ih =>
    intro vals st entries st2 h
    simp only [objEntriesF] at h
    split at h
    · have hlen := (objEntriesF_entries ks [] _ entries st2 h).2
      simp at hlen
      subst hlen
      obtain ⟨sts1, hl1, h01, hfold1, hpt1⟩ := ih [] _ _ _ h
      refine ⟨[st], by simp, by simp, ?_, ?_⟩
      · simp only [List.length_nil, List.drop_zero, List.getD_cons_zero] at hfold1 ⊢
        rw [hfold1, h01]
        simp
      · intro i hi
        simp at hi
    · rename_i v vs
      rw [bind_ok_iff] at h
      obtain ⟨⟨n1, stA⟩, h1, h⟩ := h
      rw [bind_ok_iff] at h
      obtain ⟨⟨rest, stB⟩, h2, h⟩ := h
      simp at h
      obtain ⟨h3, h4⟩ := h
      subst h4
      subst h3
      obtain ⟨sts1, hl1, h01, hfold1, hpt1⟩ := ih vs _ _ _ h2
      refine ⟨st :: sts1, ?_, by simp, ?_, ?_⟩
      · simp only [List.length_cons, hl1]
      · simp only [List.length_cons, List.drop_succ_cons, List.getD_cons_succ]
        exact hfold1
      · intro i hi
        cases i with
        | zero =>
          refine ⟨by simp, ?_⟩
          simp only [List.getD_cons_zero, List.getD_cons_succ]
          rw [h01]
          exact h1
        | succ j =>
          simp only [List.length_cons, Nat.succ_lt_succ_iff] at hi
          have hp := hpt1 j hi
          simpa using hp

/-- C8: building an object CST node produces an Object node whose entries
pair each key token with the node built from its parallel value CST, in
insertion order: entry i's key is the i-th key's text and its value is
the builder's output on the i-th value CST under the left-to-right
threaded state; any pair whose parallel value is absent (the value list
being shorter than the key list - the ANTLR label lists have no holes) is
skipped without failing, while a key token is emitted for every key
attempt regardless of whether the pair is kept. -/
theorem c8_object_build (fuel : Nat) (st : BState) (ast ctx : CST) (n : Node)
    (st2 : BState) (hty : ast.type = "object") (hctx : childAt ast 0 = .ok ctx)
    (h : createFromAST (fuel + 1) st ast = .ok (n, st2)) :
    ObjectBuildOK (createFromAST fuel) st ctx n st2 := by
  have h2 : createStep (createFromAST fuel) st ast = .ok (n, st2) := h
  unfold createStep at h2
  rw [hty] at h2
  simp only [bind_ok_iff] at h2
  obtain ⟨ctx1, hctx1, ⟨entries, st1⟩, hent, h2⟩ := h2
  rw [hctx] at hctx1
  cases hctx1
  simp [finish] at h2
  obtain ⟨hn, hst2⟩ := h2
  subst hst2
  obtain ⟨hm, hl⟩ := objEntriesF_entries ctx.keys ctx.vals st entries st1 hent
  obtain ⟨sts, hsl, hs0, hfold, hpt⟩ :=
    objEntriesF_trace ctx.keys ctx.vals st entries st1 hent
  have hf : ∀ stA c nA stB, createFromAST fuel stA c = .ok (nA, stB) →
      ∃ dt, stB.tokens = stA.tokens ++ dt :=
    fun stA c nA stB hA => (createFromAST_stepOK fuel stA c nA stB hA).2.2.2
  obtain ⟨dt, hdt, hsub⟩ :=
    objEntriesF_tokens hf ctx.keys ctx.vals st entries st1 hent
  refine ⟨(_getStartStop ast).1, (_getStartStop ast).2, entries, st1, sts,
    hn.symm, by rw [hn], hl, hm, hsl, hs0, hfold, hpt, dt,
    by simp [pushNode, bump, hdt], hsub⟩

/-- Witness for C8: the object with keys foo, bar, baz but only two
parallel values; the two kept entries hold the Number and Var nodes built
from their parallel value CSTs, the third pair is skipped, and all three
key tokens are emitted. -/
theorem c8_witness :
    ObjectBuildOK (createFromAST 19) initialState objCtx
      (resultOrDefault (createNodeTree 20 objCST)).1
      (resultOrDefault (createNodeTree 20 objCST)).2 :=
  c8_object_build 19 initialState objCST objCtx
    (resultOrDefault (createNodeTree 20 objCST)).1
    (resultOrDefault (createNodeTree 20 objCST)).2 rfl rfl (by rfl)
